import Mathlib

set_option maxHeartbeats 1000000

/-!
Shallow embedding of jcwillox/go-yamltools (loaders.go and the
README-documented node helpers), with theorems checking the spec's
claims about the custom-tag resolution engine and the inclusion
resolvers.

The yaml.v3 node model is embedded as a rose tree `Node` with the four
fields the Go code reads (Kind, Tag, Value, Content).  In-place
mutation through a node pointer is embedded by returning the node's
replacement; a Go resolver closure's side effects are embedded by
threading an explicit state.
-/

/-- Node kinds of the yaml.v3 node model (DocumentNode, SequenceNode,
MappingNode, ScalarNode, AliasNode).  The extra constructor nilPtr
stands for a nil node pointer appended into a Content slice, which
the Go code can produce when an included file parses to an empty
document; it never arises in the inputs of any claim. -/
inductive Kind where
  | document
  | sequence
  | mapping
  | scalar
  | alias
  | nilPtr
deriving DecidableEq, Repr

/-- Embedding of yaml.Node: the four fields read by this repository
(Kind, Tag, Value, Content).  Content is the ordered children list;
for a mapping it alternates key, value, key, value, ... -/
inductive Node where
  | mk (kind : Kind) (tag : String) (value : String) (content : List Node)

/-- Field accessor for Kind. -/
def Node.kind : Node → Kind
  | .mk k _ _ _ => k

/-- Field accessor for Tag. -/
def Node.tag : Node → String
  | .mk _ t _ _ => t

/-- Field accessor for Value. -/
def Node.value : Node → String
  | .mk _ _ v _ => v

/-- Field accessor for Content. -/
def Node.content : Node → List Node
  | .mk _ _ _ c => c

/-- Embedding of the TagProcessor type from loaders.go.  A Go
processor mutates the matched node in place and may return an error;
here it returns the node's replacement paired with the optional
error, and threads a state sigma modelling whatever the closure's
environment observes (logs, counters, a filesystem, ...). -/
def TagProcessor (σ E : Type) : Type := Node → σ → (Node × Option E) × σ

mutual

/-- Embedding of HandleCustomTag from loaders.go: if the node's tag
equals the searched tag, call the processor on it (and do not
descend); otherwise recurse into every child of a sequence, and into
every second child (the values) of a mapping, aborting at the first
error. -/
def HandleCustomTag {σ E : Type} (tag : String) (fn : TagProcessor σ E) :
    Node → σ → (Node × Option E) × σ
  | .mk k t v c, s =>
    if t = tag then fn (.mk k t v c) s
    else if k = .sequence then
      match handleSeqContent tag fn c s with
      | ((c2, e), s2) => ((.mk k t v c2, e), s2)
    else if k = .mapping then
      match handleMapContent tag fn c s with
      | ((c2, e), s2) => ((.mk k t v c2, e), s2)
    else ((.mk k t v c, none), s)

/-- The sequence loop of HandleCustomTag: process children left to
right, returning at the first error (later children stay untouched). -/
def handleSeqContent {σ E : Type} (tag : String) (fn : TagProcessor σ E) :
    List Node → σ → (List Node × Option E) × σ
  | [], s => (([], none), s)
  | x :: xs, s =>
    match HandleCustomTag tag fn x s with
    | ((x2, some e), s2) => ((x2 :: xs, some e), s2)
    | ((x2, none), s2) =>
      match handleSeqContent tag fn xs s2 with
      | ((xs2, e), s3) => ((x2 :: xs2, e), s3)

/-- The mapping loop of HandleCustomTag (for i := 1; i < len; i += 2):
process only the value at each odd index, returning at the first
error; keys are passed over untouched. -/
def handleMapContent {σ E : Type} (tag : String) (fn : TagProcessor σ E) :
    List Node → σ → (List Node × Option E) × σ
  | [], s => (([], none), s)
  | [key], s => (([key], none), s)
  | key :: v :: rest, s =>
    match HandleCustomTag tag fn v s with
    | ((v2, some e), s2) => ((key :: v2 :: rest, some e), s2)
    | ((v2, none), s2) =>
      match handleMapContent tag fn rest s2 with
      | ((rest2, e), s3) => ((key :: v2 :: rest2, e), s3)

end

mutual

/-- The nodes HandleCustomTag's traversal matches, in traversal order:
pre-order, sequence children left to right, mapping values only (odd
indices, ascending), with no descent into a matched node. -/
def tagMatches (tag : String) : Node → List Node
  | .mk k t v c =>
    if t = tag then [.mk k t v c]
    else if k = .sequence then tagMatchesSeq tag c
    else if k = .mapping then tagMatchesMap tag c
    else []

/-- Matches collected from a sequence's children. -/
def tagMatchesSeq (tag : String) : List Node → List Node
  | [] => []
  | x :: xs => tagMatches tag x ++ tagMatchesSeq tag xs

/-- Matches collected from a mapping's children (values only). -/
def tagMatchesMap (tag : String) : List Node → List Node
  | [] => []
  | [_] => []
  | _ :: v :: rest => tagMatches tag v ++ tagMatchesMap tag rest

end

mutual

/-- The tree HandleCustomTag produces when the resolver always
succeeds, replacing every matched node by g of it. -/
def mapMatches (tag : String) (g : Node → Node) : Node → Node
  | .mk k t v c =>
    if t = tag then g (.mk k t v c)
    else if k = .sequence then .mk k t v (mapMatchesSeq tag g c)
    else if k = .mapping then .mk k t v (mapMatchesMap tag g c)
    else .mk k t v c

/-- mapMatches over a sequence's children. -/
def mapMatchesSeq (tag : String) (g : Node → Node) : List Node → List Node
  | [] => []
  | x :: xs => mapMatches tag g x :: mapMatchesSeq tag g xs

/-- mapMatches over a mapping's children (values only). -/
def mapMatchesMap (tag : String) (g : Node → Node) : List Node → List Node
  | [] => []
  | [key] => [key]
  | key :: v :: rest => key :: mapMatches tag g v :: mapMatchesMap tag g rest

end

mutual

/-- The tree with only the first match (in traversal order) replaced
by g of it, together with a flag telling whether a match was found. -/
def replaceFirst (tag : String) (g : Node → Node) : Node → Node × Bool
  | .mk k t v c =>
    if t = tag then (g (.mk k t v c), true)
    else if k = .sequence then
      match replaceFirstSeq tag g c with
      | (c2, b) => (.mk k t v c2, b)
    else if k = .mapping then
      match replaceFirstMap tag g c with
      | (c2, b) => (.mk k t v c2, b)
    else (.mk k t v c, false)

/-- replaceFirst over a sequence's children. -/
def replaceFirstSeq (tag : String) (g : Node → Node) : List Node → List Node × Bool
  | [] => ([], false)
  | x :: xs =>
    match replaceFirst tag g x with
    | (x2, true) => (x2 :: xs, true)
    | (x2, false) =>
      match replaceFirstSeq tag g xs with
      | (xs2, b) => (x2 :: xs2, b)

/-- replaceFirst over a mapping's children (values only). -/
def replaceFirstMap (tag : String) (g : Node → Node) : List Node → List Node × Bool
  | [] => ([], false)
  | [key] => ([key], false)
  | key :: v :: rest =>
    match replaceFirst tag g v with
    | (v2, true) => (key :: v2 :: rest, true)
    | (v2, false) =>
      match replaceFirstMap tag g rest with
      | (rest2, b) => (key :: v2 :: rest2, b)

end

mutual

/-- The tree with the first match (in traversal order) overwritten by
r1 and the second match overwritten by r2, every other node (later
matches included) left untouched; cnt counts the matches already seen
so the overwrites land on the first two only.  This is the tree shape
left behind when a resolver succeeds on the first match (writing r1)
and then fails on the second (leaving it as r2, whatever the resolver
wrote before erroring), aborting the traversal. -/
def graft2 (tag : String) (r1 r2 : Node) : Node → Nat → Node × Nat
  | .mk k t v c, cnt =>
    if t = tag then
      (if cnt = 0 then r1 else if cnt = 1 then r2 else .mk k t v c, cnt + 1)
    else if k = .sequence then
      match graft2Seq tag r1 r2 c cnt with
      | (c2, cnt2) => (.mk k t v c2, cnt2)
    else if k = .mapping then
      match graft2Map tag r1 r2 c cnt with
      | (c2, cnt2) => (.mk k t v c2, cnt2)
    else (.mk k t v c, cnt)

/-- graft2 over a sequence's children. -/
def graft2Seq (tag : String) (r1 r2 : Node) : List Node → Nat → List Node × Nat
  | [], cnt => ([], cnt)
  | x :: xs, cnt =>
    match graft2 tag r1 r2 x cnt with
    | (x2, cnt2) =>
      match graft2Seq tag r1 r2 xs cnt2 with
      | (xs2, cnt3) => (x2 :: xs2, cnt3)

/-- graft2 over a mapping's children (values only). -/
def graft2Map (tag : String) (r1 r2 : Node) : List Node → Nat → List Node × Nat
  | [], cnt => ([], cnt)
  | [key], cnt => ([key], cnt)
  | key :: v :: rest, cnt =>
    match graft2 tag r1 r2 v cnt with
    | (v2, cnt2) =>
      match graft2Map tag r1 r2 rest cnt2 with
      | (rest2, cnt3) => (key :: v2 :: rest2, cnt3)

end

/-- A resolver that always succeeds, replaces the matched node by g of
it, and logs every node it is invoked on (models a resolver with
caller-observable side effects). -/
def logResolver {E : Type} (g : Node → Node) : TagProcessor (List Node) E :=
  fun n s => ((g n, none), s ++ [n])

/-- A resolver that succeeds on its first invocation, replacing the
matched node by g of it, and returns the error e on every later
invocation (leaving the node unchanged), logging every node it is
invoked on. -/
def onceResolver {E : Type} (g : Node → Node) (e : E) : TagProcessor (List Node) E :=
  fun n s => if s.isEmpty then ((g n, none), s ++ [n]) else ((n, some e), s ++ [n])

/-- The elements at even indices of a children list: the key nodes of
a mapping. -/
def evenIdx : List Node → List Node
  | [] => []
  | [key] => [key]
  | key :: _ :: rest => key :: evenIdx rest

/-- The elements at odd indices of a children list: the value nodes of
a mapping. -/
def oddIdx : List Node → List Node
  | [] => []
  | [_] => []
  | _ :: v :: rest => v :: oddIdx rest

/-- Errors of the modelled loaders: failures surfaced by the OS /
codec boundary, plus nilDeref which stands for the Go runtime panic
raised when LoadIncludeTag dereferences a nil fragment pointer. -/
inductive LoadErr where
  | notFound (path : String)
  | isDirectory (path : String)
  | nilDeref (path : String)
deriving DecidableEq, Repr

/-- An entry of the modelled filesystem.  A regular file stores its
parse result: some node for a file holding a YAML document, none for
a file whose bytes hold no document at all (empty file), in which
case yaml.v3 Unmarshal returns a nil error without ever invoking
Fragment.UnmarshalYAML, so Fragment.Content stays nil.  A directory
stores its entries, listed in the order the directory walk enumerates
them. -/
inductive FSEntry where
  | file (name : String) (doc : Option Node)
  | dir (name : String) (entries : List FSEntry)

/-- A filesystem is the list of entries of the working directory;
relative paths are resolved against it. -/
def FS : Type := List FSEntry

/-- The name of a filesystem entry. -/
def FSEntry.name : FSEntry → String
  | .file nm _ => nm
  | .dir nm _ => nm

/-- Splits a character list at '/' separators. -/
def splitPathAux : List Char → List Char → List String
  | [], acc => [String.mk acc.reverse]
  | ch :: cs, acc =>
    if ch = '/' then String.mk acc.reverse :: splitPathAux cs []
    else splitPathAux cs (ch :: acc)

/-- Splits a path into its slash-separated components. -/
def splitPath (p : String) : List String := splitPathAux p.data []

/-- Resolves a component path against a list of directory entries. -/
def findEntry (entries : List FSEntry) : List String → Option FSEntry
  | [] => none
  | [comp] => entries.find? (fun en => en.name == comp)
  | comp :: rest =>
    match entries.find? (fun en => en.name == comp) with
    | some (.dir _ es) => findEntry es rest
    | _ => none

/-- Embedding of LoadFileFragment: read the file at path and parse it
through Fragment.  The modelled codec returns the parsed document, or
none for a file with no document, mirroring how the Go function then
returns a nil node pointer together with a nil error. -/
def LoadFileFragment (fs : FS) (path : String) : Except LoadErr (Option Node) :=
  match findEntry fs (splitPath path) with
  | some (.file _ doc) => .ok doc
  | some (.dir _ _) => .error (.isDirectory path)
  | none => .error (.notFound path)

/-- Stands for a nil node pointer stored in a Content slice. -/
def nilNode : Node := .mk .nilPtr "" "" []

/-- Embedding of the resolver closure inside LoadIncludeTag: load the
file named by the node's Value and graft the fragment over the node
(the Go assignment copies every field of the fragment into the tag
node).  When LoadFileFragment returns a nil fragment with a nil error
(empty document), the Go assignment dereferences a nil pointer and
panics; the model surfaces that as the nilDeref error. -/
def includeResolver (fs : FS) : TagProcessor Unit LoadErr :=
  fun n u =>
    match LoadFileFragment fs n.value with
    | .error e => ((n, some e), u)
    | .ok (some frag) => ((frag, none), u)
    | .ok none => ((n, some (.nilDeref n.value)), u)

/-- Embedding of LoadIncludeTag: resolve every node tagged with the
include tag by grafting the loaded file over it. -/
def LoadIncludeTag (fs : FS) (n : Node) : (Node × Option LoadErr) × Unit :=
  HandleCustomTag "!include" (includeResolver fs) n ()

/-- Embedding of fileNameWithoutExt: scan the name from its end; at
the first dot return everything before it; stop at a path separator
or at the start of the name, returning the empty string.  The counter
argument j+1 means the scan currently looks at index j. -/
def fnweLoop (cs : List Char) : Nat → String
  | 0 => ""
  | j + 1 =>
    let ch := cs.getD j ' '
    if ch = '/' then ""
    else if ch = '.' then String.mk (cs.take j)
    else fnweLoop cs j

/-- Embedding of fileNameWithoutExt from loaders.go. -/
def fileNameWithoutExt (path : String) : String :=
  fnweLoop path.data path.data.length

mutual

/-- The pairs the WalkDir callback inside LoadIncludeDirNamedTag
collects from a list of directory entries, in walk order.  A regular
file contributes one pair of base name without extension and parse
result; for a sub-directory the callback returns nil rather than
SkipDir, so WalkDir descends into it and the sub-directory's own
entries are collected as well, while the directory itself contributes
no pair. -/
def walkEntries : List FSEntry → List (String × Option Node)
  | [] => []
  | e :: rest => walkEntry e ++ walkEntries rest
termination_by structural l => l

/-- The pairs one directory entry contributes to the walk. -/
def walkEntry : FSEntry → List (String × Option Node)
  | .file nm doc => [(fileNameWithoutExt nm, doc)]
  | .dir _ es => walkEntries es
termination_by structural e => e

end

/-- The mapping Content built from collected pairs: an alternating
list of string key node and loaded fragment, the shape the Go code
appends pairwise into its content slice.  A missing fragment (file
with no document) is the nil pointer the Go code appends, embedded as
nilNode. -/
def pairsContent : List (String × Option Node) → List Node
  | [] => []
  | (nm, doc) :: rest => Node.mk .scalar "!!str" nm [] :: doc.getD nilNode :: pairsContent rest

/-- Embedding of the resolver closure inside LoadIncludeDirNamedTag:
walk the path named by the node's Value with a callback that skips
the root path and directory entries and loads every regular file,
then overwrite the node with a mapping of the collected pairs.  When
the root path does not name an existing directory, WalkDir hands the
callback the root path itself (with the lstat error, or as a plain
file); the callback returns nil because that path equals the node's
Value, so the walk still succeeds with nothing collected and the node
becomes an empty mapping. -/
def includeDirNamedResolver (fs : FS) : TagProcessor Unit LoadErr :=
  fun n u =>
    match findEntry fs (splitPath n.value) with
    | some (.dir _ es) =>
      ((Node.mk .mapping "!!map" "" (pairsContent (walkEntries es)), none), u)
    | _ => ((Node.mk .mapping "!!map" "" [], none), u)

/-- Embedding of LoadIncludeDirNamedTag: resolve every node tagged
with the directory-include tag into a mapping of file name to file
content. -/
def LoadIncludeDirNamedTag (fs : FS) (n : Node) : (Node × Option LoadErr) × Unit :=
  HandleCustomTag "!include_dir_named" (includeDirNamedResolver fs) n ()

/-- Modelled from the spec: EnsureList is documented in README.md but
its Go source file (nodes.go) is not among the provided sources.  Per
the README, EnsureList ensures that the base node is a SequenceNode:
a node that is already a sequence is returned unchanged, any other
node is wrapped as the sole element of a new sequence node. -/
def EnsureList (n : Node) : Node :=
  if n.kind = .sequence then n
  else .mk .sequence "!!seq" "" [n]

mutual

/-- Whether any node of the tree, keys included, carries the given
tag. -/
def hasTagAnywhere (tag : String) : Node → Bool
  | .mk _ t _ c => t == tag || hasTagAnywhereList tag c

/-- hasTagAnywhere over a children list. -/
def hasTagAnywhereList (tag : String) : List Node → Bool
  | [] => false
  | x :: xs => hasTagAnywhere tag x || hasTagAnywhereList tag xs

end

mutual

/-- Written from the amended claim C1: the pairs a directory include
produces are one pair per regular file anywhere under the directory,
keyed by that file's base name without extension; a sub-directory
entry contributes no pair of its own but its files are included
recursively, in enumeration order. -/
def specDirNamedPairs : List FSEntry → List (String × Option Node)
  | [] => []
  | en :: rest => specDirNamedEntry en ++ specDirNamedPairs rest
termination_by structural l => l

/-- The pairs one entry contributes per the amended claim C1: one for
a regular file, and for a sub-directory the pairs of its files,
recursively, with no pair for the sub-directory itself. -/
def specDirNamedEntry : FSEntry → List (String × Option Node)
  | .file nm doc => [(fileNameWithoutExt nm, doc)]
  | .dir _ es => specDirNamedPairs es
termination_by structural e => e

end

/-- A string scalar node, as built for the keys of an include_dir
mapping. -/
def strNode (s : String) : Node := .mk .scalar "!!str" s []

/-- The parse result of a file holding the single scalar document 1. -/
def docA : Node := .mk .scalar "!!int" "1" []

/-- The parse result of a file holding the single scalar document 2. -/
def docB : Node := .mk .scalar "!!int" "2" []

/-- Entries of the directory d used against claim C1: a regular file
a.yaml directly in d, and a sub-directory sub holding b.yaml. -/
def entriesD : List FSEntry :=
  [.file "a.yaml" (some docA), .dir "sub" [.file "b.yaml" (some docB)]]

/-- Filesystem for claim C1. -/
def fsC1 : FS := [.dir "d" entriesD]

/-- The tag node naming directory d. -/
def nC1 : Node := .mk .scalar "!include_dir_named" "d" []

/-- Filesystem for claim C7: directory conf holding exactly a.yaml
(content 1) and b.yaml (content 2). -/
def fsC7 : FS := [.dir "conf" [.file "a.yaml" (some docA), .file "b.yaml" (some docB)]]

/-- The tag node naming directory conf. -/
def nC7 : Node := .mk .scalar "!include_dir_named" "conf" []

/-- Filesystem for claim C9: a file whose bytes hold no YAML document
(an empty file), so the codec never produces a node for it. -/
def fsC9 : FS := [.file "empty.yaml" none]

/-- The include tag node naming the empty file. -/
def nC9 : Node := .mk .scalar "!include" "empty.yaml" []

/-- The parse result of the Makefile used for claim C10. -/
def mfDoc : Node := .mk .scalar "!!str" "all: build" []

/-- Filesystem for claim C10: directory d holding a file named
Makefile, whose name contains no dot. -/
def fsC10 : FS := [.dir "d" [.file "Makefile" (some mfDoc)]]

/-- The tag node naming directory d of fsC10. -/
def nC10 : Node := .mk .scalar "!include_dir_named" "d" []

/-- A scalar node tagged with the custom tag, value X. -/
def nodeX : Node := .mk .scalar "!t" "X" []

/-- A scalar node tagged with the custom tag, value Y. -/
def nodeY : Node := .mk .scalar "!t" "Y" []

/-- The string key node a. -/
def keyA : Node := strNode "a"

/-- The string key node b. -/
def keyB : Node := strNode "b"

/-- A key node that itself carries the custom tag, used to check that
key positions are never resolution targets. -/
def keyT : Node := .mk .scalar "!t" "K" []

/-- The mapping tree written in YAML as a colon !t X, b colon !t Y. -/
def nodeXY : Node := .mk .mapping "!!map" "" [keyA, nodeX, keyB, nodeY]

/-- A replacement function standing for a successful resolver body:
overwrite the matched node with the string scalar R. -/
def gR : Node → Node := fun _ => strNode "R"

/-- A replacement function whose substituted content itself contains
a node carrying the searched custom tag. -/
def gNest : Node → Node :=
  fun _ => .mk .sequence "!!seq" "" [.mk .scalar "!t" "inner" []]

/-- A scalar node carrying the custom tag, the matched root for claim
C4's witness. -/
def nP : Node := .mk .scalar "!t" "p" []

mutual

/-- With an always-succeeding logging resolver, HandleCustomTag
rewrites every match through g and logs exactly the matched nodes, in
traversal order, after the incoming state. -/
theorem handle_log_node {E : Type} (tag : String) (g : Node → Node) (n : Node) (s : List Node) :
    HandleCustomTag tag (@logResolver E g) n s
      = ((mapMatches tag g n, none), s ++ tagMatches tag n) := by
  match n with
  | .mk k t v c =>
    by_cases ht : t = tag
    · simp only [HandleCustomTag, mapMatches, tagMatches, logResolver, ht, if_pos]
    · by_cases hk : k = Kind.sequence
      · simp only [HandleCustomTag, mapMatches, tagMatches, ht, hk, if_neg, if_pos,
          ite_false, ite_true, handle_log_seq tag g c s]
      · by_cases hm : k = Kind.mapping
        · subst hm
          simp [HandleCustomTag, mapMatches, tagMatches, ht,
            handle_log_map tag g c s]
        · simp only [HandleCustomTag, mapMatches, tagMatches, ht, hk, hm, ite_false,
            List.append_nil]

/-- Sequence-loop version of handle_log_node. -/
theorem handle_log_seq {E : Type} (tag : String) (g : Node → Node) (l : List Node) (s : List Node) :
    handleSeqContent tag (@logResolver E g) l s
      = ((mapMatchesSeq tag g l, none), s ++ tagMatchesSeq tag l) := by
  match l with
  | [] => simp [handleSeqContent, mapMatchesSeq, tagMatchesSeq]
  | x :: xs =>
    simp only [handleSeqContent, mapMatchesSeq, tagMatchesSeq,
      handle_log_node tag g x s, handle_log_seq tag g xs (s ++ tagMatches tag x),
      List.append_assoc]

/-- Mapping-loop version of handle_log_node. -/
theorem handle_log_map {E : Type} (tag : String) (g : Node → Node) (l : List Node) (s : List Node) :
    handleMapContent tag (@logResolver E g) l s
      = ((mapMatchesMap tag g l, none), s ++ tagMatchesMap tag l) := by
  match l with
  | [] => simp [handleMapContent, mapMatchesMap, tagMatchesMap]
  | [key] => simp [handleMapContent, mapMatchesMap, tagMatchesMap]
  | key :: v :: rest =>
    simp only [handleMapContent, mapMatchesMap, tagMatchesMap,
      handle_log_node tag g v s, handle_log_map tag g rest (s ++ tagMatches tag v),
      List.append_assoc]

end

mutual

/-- On a tree without matches, HandleCustomTag returns the tree
unchanged with no error and never invokes the resolver, whatever the
resolver is. -/
theorem handle_nomatch_node {σ E : Type} (tag : String) (fn : TagProcessor σ E)
    (n : Node) (s : σ) (h : tagMatches tag n = []) :
    HandleCustomTag tag fn n s = ((n, none), s) := by
  match n with
  | .mk k t v c =>
    by_cases ht : t = tag
    · simp [tagMatches, ht] at h
    · by_cases hk : k = Kind.sequence
      · subst hk
        simp only [tagMatches, ht, ite_false, if_neg] at h
        simp at h
        simp [HandleCustomTag, ht, handle_nomatch_seq tag fn c s h]
      · by_cases hm : k = Kind.mapping
        · subst hm
          simp only [tagMatches, ht, ite_false, if_neg] at h
          simp at h
          simp [HandleCustomTag, ht, handle_nomatch_map tag fn c s h]
        · simp [HandleCustomTag, ht, hk, hm]

/-- Sequence-loop version of handle_nomatch_node. -/
theorem handle_nomatch_seq {σ E : Type} (tag : String) (fn : TagProcessor σ E)
    (l : List Node) (s : σ) (h : tagMatchesSeq tag l = []) :
    handleSeqContent tag fn l s = ((l, none), s) := by
  match l with
  | [] => simp [handleSeqContent]
  | x :: xs =>
    rw [tagMatchesSeq, List.append_eq_nil] at h
    simp [handleSeqContent, handle_nomatch_node tag fn x s h.1,
      handle_nomatch_seq tag fn xs s h.2]

/-- Mapping-loop version of handle_nomatch_node. -/
theorem handle_nomatch_map {σ E : Type} (tag : String) (fn : TagProcessor σ E)
    (l : List Node) (s : σ) (h : tagMatchesMap tag l = []) :
    handleMapContent tag fn l s = ((l, none), s) := by
  match l with
  | [] => simp [handleMapContent]
  | [key] => simp [handleMapContent]
  | key :: v :: rest =>
    rw [tagMatchesMap, List.append_eq_nil] at h
    simp [handleMapContent, handle_nomatch_node tag fn v s h.1,
      handle_nomatch_map tag fn rest s h.2]

end

mutual

/-- replaceFirst on a tree without matches is the identity. -/
theorem replaceFirst_nomatch (tag : String) (g : Node → Node)
    (n : Node) (h : tagMatches tag n = []) :
    replaceFirst tag g n = (n, false) := by
  match n with
  | .mk k t v c =>
    by_cases ht : t = tag
    · simp [tagMatches, ht] at h
    · by_cases hk : k = Kind.sequence
      · subst hk
        simp only [tagMatches, ht, ite_false, if_neg] at h
        simp at h
        simp [replaceFirst, ht, replaceFirstSeq_nomatch tag g c h]
      · by_cases hm : k = Kind.mapping
        · subst hm
          simp only [tagMatches, ht, ite_false, if_neg] at h
          simp at h
          simp [replaceFirst, ht, replaceFirstMap_nomatch tag g c h]
        · simp [replaceFirst, ht, hk, hm]

/-- Sequence-loop version of replaceFirst_nomatch. -/
theorem replaceFirstSeq_nomatch (tag : String) (g : Node → Node)
    (l : List Node) (h : tagMatchesSeq tag l = []) :
    replaceFirstSeq tag g l = (l, false) := by
  match l with
  | [] => simp [replaceFirstSeq]
  | x :: xs =>
    rw [tagMatchesSeq, List.append_eq_nil] at h
    simp [replaceFirstSeq, replaceFirst_nomatch tag g x h.1,
      replaceFirstSeq_nomatch tag g xs h.2]

/-- Mapping-loop version of replaceFirst_nomatch. -/
theorem replaceFirstMap_nomatch (tag : String) (g : Node → Node)
    (l : List Node) (h : tagMatchesMap tag l = []) :
    replaceFirstMap tag g l = (l, false) := by
  match l with
  | [] => simp [replaceFirstMap]
  | [key] => simp [replaceFirstMap]
  | key :: v :: rest =>
    rw [tagMatchesMap, List.append_eq_nil] at h
    simp [replaceFirstMap, replaceFirst_nomatch tag g v h.1,
      replaceFirstMap_nomatch tag g rest h.2]

end

mutual

/-- replaceFirst on a tree with a match reports that it replaced. -/
theorem replaceFirst_flag (tag : String) (g : Node → Node)
    (n : Node) (m : Node) (ms : List Node) (h : tagMatches tag n = m :: ms) :
    (replaceFirst tag g n).2 = true := by
  match n with
  | .mk k t v c =>
    by_cases ht : t = tag
    · simp [replaceFirst, ht]
    · by_cases hk : k = Kind.sequence
      · subst hk
        simp only [tagMatches, ht, ite_false, if_neg] at h
        simp at h
        rw [replaceFirst]
        simp only [ht, ite_false, if_neg]
        simp [replaceFirstSeq_flag tag g c m ms h]
      · by_cases hm : k = Kind.mapping
        · subst hm
          simp only [tagMatches, ht, ite_false, if_neg] at h
          simp at h
          rw [replaceFirst]
          simp only [ht, ite_false, if_neg]
          simp [replaceFirstMap_flag tag g c m ms h]
        · simp [tagMatches, ht, hk, hm] at h

/-- Sequence-loop version of replaceFirst_flag. -/
theorem replaceFirstSeq_flag (tag : String) (g : Node → Node)
    (l : List Node) (m : Node) (ms : List Node) (h : tagMatchesSeq tag l = m :: ms) :
    (replaceFirstSeq tag g l).2 = true := by
  match l with
  | [] => simp [tagMatchesSeq] at h
  | x :: xs =>
    rw [tagMatchesSeq] at h
    rcases hx : tagMatches tag x with _ | ⟨m0, ms0⟩
    · rw [hx, List.nil_append] at h
      simp [replaceFirstSeq, replaceFirst_nomatch tag g x hx,
        replaceFirstSeq_flag tag g xs m ms h]
    · have := replaceFirst_flag tag g x m0 ms0 hx
      simp [replaceFirstSeq]
      rcases hr : replaceFirst tag g x with ⟨x2, b⟩
      rw [hr] at this
      simp at this
      subst this
      simp

/-- Mapping-loop version of replaceFirst_flag. -/
theorem replaceFirstMap_flag (tag : String) (g : Node → Node)
    (l : List Node) (m : Node) (ms : List Node) (h : tagMatchesMap tag l = m :: ms) :
    (replaceFirstMap tag g l).2 = true := by
  match l with
  | [] => simp [tagMatchesMap] at h
  | [key] => simp [tagMatchesMap] at h
  | key :: v :: rest =>
    rw [tagMatchesMap] at h
    rcases hx : tagMatches tag v with _ | ⟨m0, ms0⟩
    · rw [hx, List.nil_append] at h
      simp [replaceFirstMap, replaceFirst_nomatch tag g v hx,
        replaceFirstMap_flag tag g rest m ms h]
    · have := replaceFirst_flag tag g v m0 ms0 hx
      simp [replaceFirstMap]
      rcases hr : replaceFirst tag g v with ⟨v2, b⟩
      rw [hr] at this
      simp at this
      subst this
      simp

end

/-- The mapping loop of the match collector visits exactly the value
nodes: collecting over a mapping's children equals collecting over
every element of the odd-index sublist. -/
theorem tagMatchesMap_eq_oddIdx (tag : String) (l : List Node) :
    tagMatchesMap tag l = tagMatchesSeq tag (oddIdx l) := by
  match l with
  | [] => simp [tagMatchesMap, oddIdx, tagMatchesSeq]
  | [key] => simp [tagMatchesMap, oddIdx, tagMatchesSeq]
  | key :: v :: rest =>
    rw [tagMatchesMap, oddIdx, tagMatchesSeq, tagMatchesMap_eq_oddIdx tag rest]

/-- Rewriting a mapping's children through mapMatchesMap leaves every
key node (even index) unchanged. -/
theorem evenIdx_mapMatchesMap (tag : String) (g : Node → Node) (l : List Node) :
    evenIdx (mapMatchesMap tag g l) = evenIdx l := by
  match l with
  | [] => simp [mapMatchesMap]
  | [key] => simp [mapMatchesMap]
  | key :: v :: rest =>
    rw [mapMatchesMap, evenIdx, evenIdx, evenIdx_mapMatchesMap tag g rest]

mutual

/-- A tree in which no node (keys included) carries the tag has no
matches. -/
theorem noTag_matches (tag : String) (n : Node) (h : hasTagAnywhere tag n = false) :
    tagMatches tag n = [] := by
  match n with
  | .mk k t v c =>
    rw [hasTagAnywhere] at h
    simp only [Bool.or_eq_false_iff] at h
    have ht : ¬ t = tag := by
      intro hEq
      rw [hEq] at h
      simp at h
    rw [tagMatches]
    simp only [ht, ite_false]
    by_cases hk : k = Kind.sequence
    · simp [hk, noTag_matchesSeq tag c h.2]
    · by_cases hm : k = Kind.mapping
      · simp [hk, hm, noTag_matchesMap tag c h.2]
      · simp [hk, hm]

/-- Sequence version of noTag_matches. -/
theorem noTag_matchesSeq (tag : String) (l : List Node) (h : hasTagAnywhereList tag l = false) :
    tagMatchesSeq tag l = [] := by
  match l with
  | [] => simp [tagMatchesSeq]
  | x :: xs =>
    rw [hasTagAnywhereList] at h
    simp only [Bool.or_eq_false_iff] at h
    rw [tagMatchesSeq, noTag_matches tag x h.1, noTag_matchesSeq tag xs h.2,
      List.nil_append]

/-- Mapping version of noTag_matches. -/
theorem noTag_matchesMap (tag : String) (l : List Node) (h : hasTagAnywhereList tag l = false) :
    tagMatchesMap tag l = [] := by
  match l with
  | [] => simp [tagMatchesMap]
  | [key] => simp [tagMatchesMap]
  | key :: v :: rest =>
    rw [hasTagAnywhereList, hasTagAnywhereList] at h
    simp only [Bool.or_eq_false_iff] at h
    rw [tagMatchesMap, noTag_matches tag v h.2.1, noTag_matchesMap tag rest h.2.2,
      List.nil_append]

end

mutual

/-- The pairs the modelled directory walk collects are exactly those
the amended claim C1 describes: one pair per regular file anywhere
under the directory, none for sub-directory entries themselves. -/
theorem walkEntries_eq_spec (l : List FSEntry) :
    walkEntries l = specDirNamedPairs l := by
  match l with
  | [] => rfl
  | en :: rest =>
    rw [walkEntries, specDirNamedPairs, walkEntry_eq_spec en, walkEntries_eq_spec rest]

/-- Entry version of walkEntries_eq_spec. -/
theorem walkEntry_eq_spec (e : FSEntry) :
    walkEntry e = specDirNamedEntry e := by
  match e with
  | .file nm doc => rfl
  | .dir nm es =>
    rw [walkEntry, specDirNamedEntry, walkEntries_eq_spec es]

end

/-- C1 counterexample: the claim says files inside sub-directories
contribute no pairs, but on a directory d holding a.yaml and a
sub-directory sub holding b.yaml, LoadIncludeDirNamedTag produces a
mapping with a pair for b as well (WalkDir descends into sub because
the callback returns nil, not SkipDir, for directory entries), so the
mapping has four content nodes instead of the claimed two. -/
theorem C1_subdir_files_contribute_counterexample :
    (LoadIncludeDirNamedTag fsC1 nC1).1.1
      = Node.mk Kind.mapping "!!map" "" [strNode "a", docA, strNode "b", docB] ∧
    (LoadIncludeDirNamedTag fsC1 nC1).1.1.content.length ≠ 2 :=
  ⟨rfl, by decide⟩

/-- C1 amended: for every directory path that resolves to a directory,
LoadIncludeDirNamedTag replaces the tag node with a mapping holding
one pair per regular file anywhere under the directory (recursively);
sub-directory entries themselves are skipped and contribute no pair,
but the regular files inside them do. -/
theorem C1_dir_include_recursive (fs : FS) (p nm : String) (es : List FSEntry)
    (k : Kind) (c : List Node)
    (h : findEntry fs (splitPath p) = some (.dir nm es)) :
    LoadIncludeDirNamedTag fs (Node.mk k "!include_dir_named" p c)
      = ((Node.mk .mapping "!!map" "" (pairsContent (specDirNamedPairs es)), none), ()) := by
  rw [LoadIncludeDirNamedTag, HandleCustomTag]
  simp only [ite_true, if_pos]
  simp only [includeDirNamedResolver, Node.value]
  rw [h]
  simp [walkEntries_eq_spec]

/-- C1 amended, witness: the general theorem applied to the concrete
filesystem of the counterexample. -/
theorem C1_dir_include_recursive_witness :
    findEntry fsC1 (splitPath "d") = some (FSEntry.dir "d" entriesD) ∧
    LoadIncludeDirNamedTag fsC1 nC1
      = ((Node.mk .mapping "!!map" "" (pairsContent (specDirNamedPairs entriesD)), none), ()) :=
  ⟨rfl, C1_dir_include_recursive fsC1 "d" "d" entriesD Kind.scalar [] rfl⟩

/-- C3: with a logging resolver, HandleCustomTag invokes the resolver
exactly on the matched nodes in document order (depth-first
pre-order, top-to-bottom and left-to-right, as collected by
tagMatches); in particular, on the mapping a colon !t X, b colon !t Y
the log observes X before Y. -/
theorem C3_document_order {E : Type} (tag : String) (g : Node → Node) (n : Node) :
    (HandleCustomTag tag (@logResolver E g) n []).2 = tagMatches tag n ∧
    (HandleCustomTag "!t" (@logResolver E g) nodeXY []).2 = [nodeX, nodeY] := by
  constructor
  · rw [handle_log_node]
    simp
  · rfl

/-- C4: on a node whose tag equals the searched tag, HandleCustomTag
is exactly one resolver invocation on that node, for every resolver:
it does not descend into the node and never re-scans whatever content
the resolver substituted. -/
theorem C4_match_resolved_once_no_descent {σ E : Type} (tag : String)
    (fn : TagProcessor σ E) (n : Node) (s : σ) (h : n.tag = tag) :
    HandleCustomTag tag fn n s = fn n s := by
  match n with
  | .mk k t v c =>
    simp only [Node.tag] at h
    simp [HandleCustomTag, h]

/-- C4 witness: a resolver substituting content that itself carries
the searched tag; the substituted content is returned as is (not
re-resolved) and the resolver ran exactly once, on the tag node. -/
theorem C4_match_resolved_once_no_descent_witness :
    HandleCustomTag "!t" (@logResolver String gNest) nP []
      = logResolver gNest nP [] ∧
    (HandleCustomTag "!t" (@logResolver String gNest) nP []).1.1
      = Node.mk .sequence "!!seq" "" [Node.mk .scalar "!t" "inner" []] ∧
    (HandleCustomTag "!t" (@logResolver String gNest) nP []).2 = [nP] :=
  ⟨C4_match_resolved_once_no_descent "!t" (@logResolver String gNest) nP [] rfl, rfl, rfl⟩

/-- C5: recursing into a non-matching mapping node resolves only the
value nodes: every key node (even index) is left unchanged, and the
resolver log collects matches exactly from the odd-index (value)
subtrees, so neither a key node nor any of its descendants is ever
handed to the resolver. -/
theorem C5_keys_never_resolved {E : Type} (tag : String) (g : Node → Node)
    (k : Kind) (t v : String) (c : List Node) (s : List Node)
    (ht : t ≠ tag) (hk : k = Kind.mapping) :
    (HandleCustomTag tag (@logResolver E g) (Node.mk k t v c) s).1.1
        = Node.mk k t v (mapMatchesMap tag g c) ∧
    evenIdx (mapMatchesMap tag g c) = evenIdx c ∧
    (HandleCustomTag tag (@logResolver E g) (Node.mk k t v c) s).2
        = s ++ tagMatchesSeq tag (oddIdx c) := by
  subst hk
  simp only [handle_log_node]
  refine ⟨?_, evenIdx_mapMatchesMap tag g c, ?_⟩
  · rw [mapMatches]
    simp [ht]
  · rw [tagMatches]
    simp [ht, tagMatchesMap_eq_oddIdx]

/-- C5 witness: a mapping whose key node itself carries the searched
tag; the key stays unresolved in place and the log holds only the
value node X. -/
theorem C5_keys_never_resolved_witness :
    ((HandleCustomTag "!t" (@logResolver String gR)
        (Node.mk Kind.mapping "!!map" "" [keyT, nodeX]) []).1.1
        = Node.mk Kind.mapping "!!map" "" (mapMatchesMap "!t" gR [keyT, nodeX]) ∧
      evenIdx (mapMatchesMap "!t" gR [keyT, nodeX]) = evenIdx [keyT, nodeX] ∧
      (HandleCustomTag "!t" (@logResolver String gR)
        (Node.mk Kind.mapping "!!map" "" [keyT, nodeX]) []).2
        = [] ++ tagMatchesSeq "!t" (oddIdx [keyT, nodeX])) ∧
    (HandleCustomTag "!t" (@logResolver String gR)
        (Node.mk Kind.mapping "!!map" "" [keyT, nodeX]) []).2 = [nodeX] :=
  ⟨@C5_keys_never_resolved String "!t" gR Kind.mapping "!!map" "" [keyT, nodeX] []
    (by decide) rfl, rfl⟩

/-- C6: on a tree in which no node (keys included) carries the
searched tag, HandleCustomTag returns a nil error and the tree
unchanged, for every resolver. -/
theorem C6_no_match_identity {σ E : Type} (tag : String) (fn : TagProcessor σ E)
    (n : Node) (s : σ) (h : hasTagAnywhere tag n = false) :
    HandleCustomTag tag fn n s = ((n, none), s) :=
  handle_nomatch_node tag fn n s (noTag_matches tag n h)

/-- C6 witness: the mapping a colon !t X, b colon !t Y holds no node
tagged !inc, and resolving !inc leaves it untouched with no error. -/
theorem C6_no_match_identity_witness :
    hasTagAnywhere "!inc" nodeXY = false ∧
    HandleCustomTag "!inc" (@logResolver String gR) nodeXY [] = ((nodeXY, none), []) :=
  ⟨rfl, C6_no_match_identity "!inc" (@logResolver String gR) nodeXY [] rfl⟩

/-- C7: on a directory conf holding exactly a.yaml (content 1) and
b.yaml (content 2), the tag node is overwritten in place with a
mapping node tagged !!map whose pairs are the string-scalar keys a
and b, in enumeration order, mapped to the parsed scalars 1 and 2. -/
theorem C7_dir_named_concrete :
    LoadIncludeDirNamedTag fsC7 nC7
      = ((Node.mk Kind.mapping "!!map" "" [strNode "a", docA, strNode "b", docB], none), ()) ∧
    (strNode "a").kind = Kind.scalar ∧ (strNode "a").tag = "!!str" :=
  ⟨rfl, rfl, rfl⟩

/-- C8: EnsureList wraps every non-sequence node as the sole child of
a sequence node, leaving the node itself unchanged inside, and
returns every sequence node unchanged. -/
theorem C8_ensure_list (n : Node) :
    (n.kind ≠ Kind.sequence →
      (EnsureList n).kind = Kind.sequence ∧ (EnsureList n).content = [n]) ∧
    (n.kind = Kind.sequence → EnsureList n = n) := by
  constructor
  · intro h
    rw [EnsureList, if_neg h]
    exact ⟨rfl, rfl⟩
  · intro h
    rw [EnsureList, if_pos h]

/-- C8 witness: EnsureList on the scalar x yields a sequence with x as
its sole child, and is the identity on a sequence node. -/
theorem C8_ensure_list_witness :
    ((strNode "x").kind ≠ Kind.sequence ∧
      (EnsureList (strNode "x")).kind = Kind.sequence ∧
      (EnsureList (strNode "x")).content = [strNode "x"]) ∧
    ((Node.mk Kind.sequence "!!seq" "" [nodeX]).kind = Kind.sequence ∧
      EnsureList (Node.mk Kind.sequence "!!seq" "" [nodeX])
        = Node.mk Kind.sequence "!!seq" "" [nodeX]) :=
  ⟨⟨by decide, (C8_ensure_list (strNode "x")).1 (by decide)⟩,
   ⟨rfl, (C8_ensure_list (Node.mk Kind.sequence "!!seq" "" [nodeX])).2 rfl⟩⟩

/-- C9: the claim fails on the code; for a file whose bytes hold no
YAML document, yaml.v3 Unmarshal never invokes Fragment.UnmarshalYAML
and LoadFileFragment returns a nil node pointer together with a nil
error, after which the !include resolver's graft dereferences that
nil pointer (surfaced here as the modelled nilDeref error standing
for the Go runtime panic). -/
theorem C9_empty_fragment_nil :
    LoadFileFragment fsC9 "empty.yaml" = Except.ok none ∧
    (LoadIncludeTag fsC9 nC9).1.2 = some (LoadErr.nilDeref "empty.yaml") :=
  ⟨rfl, rfl⟩

mutual

/-- graft2 on a tree without matches is the identity on tree and
count. -/
theorem graft2_nomatch_node (tag : String) (r1 r2 : Node) (n : Node) (cnt : Nat)
    (h : tagMatches tag n = []) :
    graft2 tag r1 r2 n cnt = (n, cnt) := by
  match n with
  | .mk k t v c =>
    by_cases ht : t = tag
    · simp [tagMatches, ht] at h
    · by_cases hk : k = Kind.sequence
      · subst hk
        simp only [tagMatches, ht, ite_false, ite_true] at h
        simp [graft2, ht, graft2_nomatch_seq tag r1 r2 c cnt h]
      · by_cases hm : k = Kind.mapping
        · subst hm
          simp only [tagMatches, ht, ite_false, if_neg] at h
          simp at h
          simp [graft2, ht, graft2_nomatch_map tag r1 r2 c cnt h]
        · simp [graft2, ht, hk, hm]

/-- Sequence-loop version of graft2_nomatch_node. -/
theorem graft2_nomatch_seq (tag : String) (r1 r2 : Node) (l : List Node) (cnt : Nat)
    (h : tagMatchesSeq tag l = []) :
    graft2Seq tag r1 r2 l cnt = (l, cnt) := by
  match l with
  | [] => simp [graft2Seq]
  | x :: xs =>
    rw [tagMatchesSeq, List.append_eq_nil] at h
    simp [graft2Seq, graft2_nomatch_node tag r1 r2 x cnt h.1,
      graft2_nomatch_seq tag r1 r2 xs cnt h.2]

/-- Mapping-loop version of graft2_nomatch_node. -/
theorem graft2_nomatch_map (tag : String) (r1 r2 : Node) (l : List Node) (cnt : Nat)
    (h : tagMatchesMap tag l = []) :
    graft2Map tag r1 r2 l cnt = (l, cnt) := by
  match l with
  | [] => simp [graft2Map]
  | [key] => simp [graft2Map]
  | key :: v :: rest =>
    rw [tagMatchesMap, List.append_eq_nil] at h
    simp [graft2Map, graft2_nomatch_node tag r1 r2 v cnt h.1,
      graft2_nomatch_map tag r1 r2 rest cnt h.2]

end

mutual

/-- graft2 increments its count once per match of the subtree. -/
theorem graft2_count_node (tag : String) (r1 r2 : Node) (n : Node) (cnt : Nat) :
    (graft2 tag r1 r2 n cnt).2 = cnt + (tagMatches tag n).length := by
  match n with
  | .mk k t v c =>
    by_cases ht : t = tag
    · simp [graft2, tagMatches, ht]
    · by_cases hk : k = Kind.sequence
      · subst hk
        simp [graft2, tagMatches, ht, graft2_count_seq tag r1 r2 c cnt]
      · by_cases hm : k = Kind.mapping
        · subst hm
          simp [graft2, tagMatches, ht, graft2_count_map tag r1 r2 c cnt]
        · simp [graft2, tagMatches, ht, hk, hm]

/-- Sequence-loop version of graft2_count_node. -/
theorem graft2_count_seq (tag : String) (r1 r2 : Node) (l : List Node) (cnt : Nat) :
    (graft2Seq tag r1 r2 l cnt).2 = cnt + (tagMatchesSeq tag l).length := by
  match l with
  | [] => simp [graft2Seq, tagMatchesSeq]
  | x :: xs =>
    have h1 := graft2_count_node tag r1 r2 x cnt
    have h2 := graft2_count_seq tag r1 r2 xs (graft2 tag r1 r2 x cnt).2
    rw [graft2Seq]
    rcases hx : graft2 tag r1 r2 x cnt with ⟨x2, cnt2⟩
    rcases hxs : graft2Seq tag r1 r2 xs cnt2 with ⟨xs2, cnt3⟩
    rw [hx] at h1 h2
    simp only at h1 h2
    rw [hxs] at h2
    simp only at h2
    simp only [tagMatchesSeq, List.length_append]
    rw [hxs]
    show cnt3 = cnt + ((tagMatches tag x).length + (tagMatchesSeq tag xs).length)
    omega

/-- Mapping-loop version of graft2_count_node. -/
theorem graft2_count_map (tag : String) (r1 r2 : Node) (l : List Node) (cnt : Nat) :
    (graft2Map tag r1 r2 l cnt).2 = cnt + (tagMatchesMap tag l).length := by
  match l with
  | [] => simp [graft2Map, tagMatchesMap]
  | [key] => simp [graft2Map, tagMatchesMap]
  | key :: v :: rest =>
    have h1 := graft2_count_node tag r1 r2 v cnt
    have h2 := graft2_count_map tag r1 r2 rest (graft2 tag r1 r2 v cnt).2
    rw [graft2Map]
    rcases hx : graft2 tag r1 r2 v cnt with ⟨v2, cnt2⟩
    rcases hxs : graft2Map tag r1 r2 rest cnt2 with ⟨rest2, cnt3⟩
    rw [hx] at h1 h2
    simp only at h1 h2
    rw [hxs] at h2
    simp only at h2
    simp only [tagMatchesMap, List.length_append]
    rw [hxs]
    show cnt3 = cnt + ((tagMatches tag v).length + (tagMatchesMap tag rest).length)
    omega

end

example : (graft2 "!t" (strNode "R") nodeY nodeXY 0).1
    = Node.mk .mapping "!!map" "" [keyA, strNode "R", keyB, nodeY] := rfl
example : graft2 "!t" (strNode "R") nodeY nodeXY 0
    = (Node.mk .mapping "!!map" "" [keyA, strNode "R", keyB, nodeY], 2) := rfl

mutual

/-- With two grafts already placed, graft2 changes nothing. -/
theorem graft2_ge2_node (tag : String) (r1 r2 : Node) (n : Node) (cnt : Nat)
    (h : 2 ≤ cnt) : (graft2 tag r1 r2 n cnt).1 = n := by
  match n with
  | .mk k t v c =>
    have h0 : ¬ cnt = 0 := by omega
    have h1 : ¬ cnt = 1 := by omega
    by_cases ht : t = tag
    · simp [graft2, ht, h0, h1]
    · by_cases hk : k = Kind.sequence
      · subst hk
        simp [graft2, ht, graft2_ge2_seq tag r1 r2 c cnt h]
      · by_cases hm : k = Kind.mapping
        · subst hm
          simp [graft2, ht, graft2_ge2_map tag r1 r2 c cnt h]
        · simp [graft2, ht, hk, hm]

/-- Sequence-loop version of graft2_ge2_node. -/
theorem graft2_ge2_seq (tag : String) (r1 r2 : Node) (l : List Node) (cnt : Nat)
    (h : 2 ≤ cnt) : (graft2Seq tag r1 r2 l cnt).1 = l := by
  match l with
  | [] => simp [graft2Seq]
  | x :: xs =>
    have hc : 2 ≤ (graft2 tag r1 r2 x cnt).2 := by
      rw [graft2_count_node]
      omega
    simp [graft2Seq, graft2_ge2_node tag r1 r2 x cnt h,
      graft2_ge2_seq tag r1 r2 xs ((graft2 tag r1 r2 x cnt).2) hc]

/-- Mapping-loop version of graft2_ge2_node. -/
theorem graft2_ge2_map (tag : String) (r1 r2 : Node) (l : List Node) (cnt : Nat)
    (h : 2 ≤ cnt) : (graft2Map tag r1 r2 l cnt).1 = l := by
  match l with
  | [] => simp [graft2Map]
  | [key] => simp [graft2Map]
  | key :: v :: rest =>
    have hc : 2 ≤ (graft2 tag r1 r2 v cnt).2 := by
      rw [graft2_count_node]
      omega
    simp [graft2Map, graft2_ge2_node tag r1 r2 v cnt h,
      graft2_ge2_map tag r1 r2 rest ((graft2 tag r1 r2 v cnt).2) hc]

end

mutual

/-- With one graft already placed, graft2 overwrites only the first
remaining match, with r2. -/
theorem graft2_one_node (tag : String) (r1 r2 : Node) (n : Node) :
    (graft2 tag r1 r2 n 1).1 = (replaceFirst tag (fun _ => r2) n).1 := by
  match n with
  | .mk k t v c =>
    by_cases ht : t = tag
    · simp [graft2, replaceFirst, ht]
    · by_cases hk : k = Kind.sequence
      · subst hk
        simp [graft2, replaceFirst, ht, graft2_one_seq tag r1 r2 c]
      · by_cases hm : k = Kind.mapping
        · subst hm
          simp [graft2, replaceFirst, ht, graft2_one_map tag r1 r2 c]
        · simp [graft2, replaceFirst, ht, hk, hm]

/-- Sequence-loop version of graft2_one_node. -/
theorem graft2_one_seq (tag : String) (r1 r2 : Node) (l : List Node) :
    (graft2Seq tag r1 r2 l 1).1 = (replaceFirstSeq tag (fun _ => r2) l).1 := by
  match l with
  | [] => simp [graft2Seq, replaceFirstSeq]
  | x :: xs =>
    rcases hx : tagMatches tag x with _ | ⟨m0, tl⟩
    · simp [graft2Seq, replaceFirstSeq, graft2_nomatch_node tag r1 r2 x 1 hx,
        replaceFirst_nomatch tag (fun _ => r2) x hx, graft2_one_seq tag r1 r2 xs]
    · have hflag := replaceFirst_flag tag (fun _ => r2) x m0 tl hx
      have hc : 2 ≤ (graft2 tag r1 r2 x 1).2 := by
        rw [graft2_count_node, hx]
        simp
        omega
      have hnode := graft2_one_node tag r1 r2 x
      rcases hr : replaceFirst tag (fun _ => r2) x with ⟨x2, b⟩
      rw [hr] at hflag hnode
      simp only at hflag hnode
      subst hflag
      simp [graft2Seq, replaceFirstSeq, hr, hnode,
        graft2_ge2_seq tag r1 r2 xs ((graft2 tag r1 r2 x 1).2) hc]

/-- Mapping-loop version of graft2_one_node. -/
theorem graft2_one_map (tag : String) (r1 r2 : Node) (l : List Node) :
    (graft2Map tag r1 r2 l 1).1 = (replaceFirstMap tag (fun _ => r2) l).1 := by
  match l with
  | [] => simp [graft2Map, replaceFirstMap]
  | [key] => simp [graft2Map, replaceFirstMap]
  | key :: v :: rest =>
    rcases hx : tagMatches tag v with _ | ⟨m0, tl⟩
    · simp [graft2Map, replaceFirstMap, graft2_nomatch_node tag r1 r2 v 1 hx,
        replaceFirst_nomatch tag (fun _ => r2) v hx, graft2_one_map tag r1 r2 rest]
    · have hflag := replaceFirst_flag tag (fun _ => r2) v m0 tl hx
      have hc : 2 ≤ (graft2 tag r1 r2 v 1).2 := by
        rw [graft2_count_node, hx]
        simp
        omega
      have hnode := graft2_one_node tag r1 r2 v
      rcases hr : replaceFirst tag (fun _ => r2) v with ⟨v2, b⟩
      rw [hr] at hflag hnode
      simp only at hflag hnode
      subst hflag
      simp [graft2Map, replaceFirstMap, hr, hnode,
        graft2_ge2_map tag r1 r2 rest ((graft2 tag r1 r2 v 1).2) hc]

end

mutual

/-- On a tree with exactly one match, graft2 from a fresh count
overwrites that match with r1. -/
theorem graft2_zero1_node (tag : String) (r1 r2 : Node) (n m : Node)
    (h : tagMatches tag n = [m]) :
    (graft2 tag r1 r2 n 0).1 = (replaceFirst tag (fun _ => r1) n).1 := by
  match n with
  | .mk k t v c =>
    by_cases ht : t = tag
    · simp [graft2, replaceFirst, ht]
    · by_cases hk : k = Kind.sequence
      · subst hk
        rw [tagMatches] at h
        simp only [ht, ite_false, ite_true] at h
        simp [graft2, replaceFirst, ht, graft2_zero1_seq tag r1 r2 c m h]
      · by_cases hm : k = Kind.mapping
        · subst hm
          rw [tagMatches] at h
          simp only [ht, ite_false, if_neg] at h
          simp at h
          simp [graft2, replaceFirst, ht, graft2_zero1_map tag r1 r2 c m h]
        · simp [tagMatches, ht, hk, hm] at h

/-- Sequence-loop version of graft2_zero1_node. -/
theorem graft2_zero1_seq (tag : String) (r1 r2 : Node) (l : List Node) (m : Node)
    (h : tagMatchesSeq tag l = [m]) :
    (graft2Seq tag r1 r2 l 0).1 = (replaceFirstSeq tag (fun _ => r1) l).1 := by
  match l with
  | [] => simp [tagMatchesSeq] at h
  | x :: xs =>
    rcases hx : tagMatches tag x with _ | ⟨m0, tl⟩
    · rw [tagMatchesSeq, hx, List.nil_append] at h
      simp [graft2Seq, replaceFirstSeq, graft2_nomatch_node tag r1 r2 x 0 hx,
        replaceFirst_nomatch tag (fun _ => r1) x hx, graft2_zero1_seq tag r1 r2 xs m h]
    · rw [tagMatchesSeq, hx, List.cons_append] at h
      simp only [List.cons.injEq, List.append_eq_nil] at h
      have hx2 : tagMatches tag x = [m] := by rw [hx, h.1, h.2.1]
      have hnode := graft2_zero1_node tag r1 r2 x m hx2
      have hcnt : (graft2 tag r1 r2 x 0).2 = 1 := by
        rw [graft2_count_node, hx2]
        rfl
      have hflag := replaceFirst_flag tag (fun _ => r1) x m [] hx2
      rcases hr : replaceFirst tag (fun _ => r1) x with ⟨x2, b⟩
      rw [hr] at hflag hnode
      simp only at hflag hnode
      subst hflag
      simp [graft2Seq, replaceFirstSeq, hr, hnode, hcnt,
        graft2_nomatch_seq tag r1 r2 xs 1 h.2.2]

/-- Mapping-loop version of graft2_zero1_node. -/
theorem graft2_zero1_map (tag : String) (r1 r2 : Node) (l : List Node) (m : Node)
    (h : tagMatchesMap tag l = [m]) :
    (graft2Map tag r1 r2 l 0).1 = (replaceFirstMap tag (fun _ => r1) l).1 := by
  match l with
  | [] => simp [tagMatchesMap] at h
  | [key] => simp [tagMatchesMap] at h
  | key :: v :: rest =>
    rcases hx : tagMatches tag v with _ | ⟨m0, tl⟩
    · rw [tagMatchesMap, hx, List.nil_append] at h
      simp [graft2Map, replaceFirstMap, graft2_nomatch_node tag r1 r2 v 0 hx,
        replaceFirst_nomatch tag (fun _ => r1) v hx, graft2_zero1_map tag r1 r2 rest m h]
    · rw [tagMatchesMap, hx, List.cons_append] at h
      simp only [List.cons.injEq, List.append_eq_nil] at h
      have hx2 : tagMatches tag v = [m] := by rw [hx, h.1, h.2.1]
      have hnode := graft2_zero1_node tag r1 r2 v m hx2
      have hcnt : (graft2 tag r1 r2 v 0).2 = 1 := by
        rw [graft2_count_node, hx2]
        rfl
      have hflag := replaceFirst_flag tag (fun _ => r1) v m [] hx2
      rcases hr : replaceFirst tag (fun _ => r1) v with ⟨v2, b⟩
      rw [hr] at hflag hnode
      simp only at hflag hnode
      subst hflag
      simp [graft2Map, replaceFirstMap, hr, hnode, hcnt,
        graft2_nomatch_map tag r1 r2 rest 1 h.2.2]

end

mutual

/-- For an arbitrary resolver that errors on the tree's first match,
HandleCustomTag propagates the error and final state, leaves in place
whatever the resolver wrote into that match, and touches nothing
else. -/
theorem handle_fail1_node {σ E : Type} (tag : String) (fn : TagProcessor σ E)
    (n : Node) (s s' : σ) (m r : Node) (tl : List Node) (e : E)
    (hm : tagMatches tag n = m :: tl) (hf : fn m s = ((r, some e), s')) :
    HandleCustomTag tag fn n s = (((replaceFirst tag (fun _ => r) n).1, some e), s') := by
  match n with
  | .mk k t v c =>
    by_cases ht : t = tag
    · rw [tagMatches] at hm
      simp only [ht, ite_true, List.cons.injEq] at hm
      rw [HandleCustomTag]
      simp only [ht, ite_true]
      rw [← hm.1] at hf
      rw [hf, replaceFirst]
      simp [ht]
    · by_cases hk : k = Kind.sequence
      · subst hk
        rw [tagMatches] at hm
        simp only [ht, ite_false, ite_true] at hm
        simp [HandleCustomTag, replaceFirst, ht,
          handle_fail1_seq tag fn c s s' m r tl e hm hf]
      · by_cases hmp : k = Kind.mapping
        · subst hmp
          rw [tagMatches] at hm
          simp only [ht, ite_false, if_neg] at hm
          simp at hm
          simp [HandleCustomTag, replaceFirst, ht,
            handle_fail1_map tag fn c s s' m r tl e hm hf]
        · simp [tagMatches, ht, hk, hmp] at hm

/-- Sequence-loop version of handle_fail1_node. -/
theorem handle_fail1_seq {σ E : Type} (tag : String) (fn : TagProcessor σ E)
    (l : List Node) (s s' : σ) (m r : Node) (tl : List Node) (e : E)
    (hm : tagMatchesSeq tag l = m :: tl) (hf : fn m s = ((r, some e), s')) :
    handleSeqContent tag fn l s = (((replaceFirstSeq tag (fun _ => r) l).1, some e), s') := by
  match l with
  | [] => simp [tagMatchesSeq] at hm
  | x :: xs =>
    rcases hx : tagMatches tag x with _ | ⟨m0, tl0⟩
    · rw [tagMatchesSeq, hx, List.nil_append] at hm
      simp [handleSeqContent, handle_nomatch_node tag fn x s hx,
        replaceFirstSeq, replaceFirst_nomatch tag (fun _ => r) x hx,
        handle_fail1_seq tag fn xs s s' m r tl e hm hf]
    · rw [tagMatchesSeq, hx, List.cons_append] at hm
      simp only [List.cons.injEq] at hm
      have hx2 : tagMatches tag x = m :: tl0 := by rw [hx, hm.1]
      have hnode := handle_fail1_node tag fn x s s' m r tl0 e hx2 hf
      have hflag := replaceFirst_flag tag (fun _ => r) x m tl0 hx2
      rcases hr : replaceFirst tag (fun _ => r) x with ⟨x2, b⟩
      rw [hr] at hflag hnode
      simp only at hflag hnode
      subst hflag
      simp [handleSeqContent, hnode, replaceFirstSeq, hr]

/-- Mapping-loop version of handle_fail1_node. -/
theorem handle_fail1_map {σ E : Type} (tag : String) (fn : TagProcessor σ E)
    (l : List Node) (s s' : σ) (m r : Node) (tl : List Node) (e : E)
    (hm : tagMatchesMap tag l = m :: tl) (hf : fn m s = ((r, some e), s')) :
    handleMapContent tag fn l s = (((replaceFirstMap tag (fun _ => r) l).1, some e), s') := by
  match l with
  | [] => simp [tagMatchesMap] at hm
  | [key] => simp [tagMatchesMap] at hm
  | key :: v :: rest =>
    rcases hx : tagMatches tag v with _ | ⟨m0, tl0⟩
    · rw [tagMatchesMap, hx, List.nil_append] at hm
      simp [handleMapContent, handle_nomatch_node tag fn v s hx,
        replaceFirstMap, replaceFirst_nomatch tag (fun _ => r) v hx,
        handle_fail1_map tag fn rest s s' m r tl e hm hf]
    · rw [tagMatchesMap, hx, List.cons_append] at hm
      simp only [List.cons.injEq] at hm
      have hx2 : tagMatches tag v = m :: tl0 := by rw [hx, hm.1]
      have hnode := handle_fail1_node tag fn v s s' m r tl0 e hx2 hf
      have hflag := replaceFirst_flag tag (fun _ => r) v m tl0 hx2
      rcases hr : replaceFirst tag (fun _ => r) v with ⟨v2, b⟩
      rw [hr] at hflag hnode
      simp only at hflag hnode
      subst hflag
      simp [handleMapContent, hnode, replaceFirstMap, hr]

end

mutual

/-- For an arbitrary resolver on a tree with exactly one match, a
successful resolution replaces that match in place, returns no error
and ends in the resolver's final state. -/
theorem handle_succ1_node {σ E : Type} (tag : String) (fn : TagProcessor σ E)
    (n : Node) (s s' : σ) (m r : Node)
    (hm : tagMatches tag n = [m]) (hf : fn m s = ((r, none), s')) :
    HandleCustomTag tag fn n s = (((replaceFirst tag (fun _ => r) n).1, none), s') := by
  match n with
  | .mk k t v c =>
    by_cases ht : t = tag
    · rw [tagMatches] at hm
      simp only [ht, ite_true, List.cons.injEq] at hm
      rw [HandleCustomTag]
      simp only [ht, ite_true]
      rw [← hm.1] at hf
      rw [hf, replaceFirst]
      simp [ht]
    · by_cases hk : k = Kind.sequence
      · subst hk
        rw [tagMatches] at hm
        simp only [ht, ite_false, ite_true] at hm
        simp [HandleCustomTag, replaceFirst, ht,
          handle_succ1_seq tag fn c s s' m r hm hf]
      · by_cases hmp : k = Kind.mapping
        · subst hmp
          rw [tagMatches] at hm
          simp only [ht, ite_false, if_neg] at hm
          simp at hm
          simp [HandleCustomTag, replaceFirst, ht,
            handle_succ1_map tag fn c s s' m r hm hf]
        · simp [tagMatches, ht, hk, hmp] at hm

/-- Sequence-loop version of handle_succ1_node. -/
theorem handle_succ1_seq {σ E : Type} (tag : String) (fn : TagProcessor σ E)
    (l : List Node) (s s' : σ) (m r : Node)
    (hm : tagMatchesSeq tag l = [m]) (hf : fn m s = ((r, none), s')) :
    handleSeqContent tag fn l s = (((replaceFirstSeq tag (fun _ => r) l).1, none), s') := by
  match l with
  | [] => simp [tagMatchesSeq] at hm
  | x :: xs =>
    rcases hx : tagMatches tag x with _ | ⟨m0, tl0⟩
    · rw [tagMatchesSeq, hx, List.nil_append] at hm
      simp [handleSeqContent, handle_nomatch_node tag fn x s hx,
        replaceFirstSeq, replaceFirst_nomatch tag (fun _ => r) x hx,
        handle_succ1_seq tag fn xs s s' m r hm hf]
    · rw [tagMatchesSeq, hx, List.cons_append] at hm
      simp only [List.cons.injEq, List.append_eq_nil] at hm
      have hx2 : tagMatches tag x = [m] := by rw [hx, hm.1, hm.2.1]
      have hnode := handle_succ1_node tag fn x s s' m r hx2 hf
      have hflag := replaceFirst_flag tag (fun _ => r) x m [] hx2
      rcases hr : replaceFirst tag (fun _ => r) x with ⟨x2, b⟩
      rw [hr] at hflag hnode
      simp only at hflag hnode
      subst hflag
      simp [handleSeqContent, hnode, replaceFirstSeq, hr,
        handle_nomatch_seq tag fn xs s' hm.2.2]

/-- Mapping-loop version of handle_succ1_node. -/
theorem handle_succ1_map {σ E : Type} (tag : String) (fn : TagProcessor σ E)
    (l : List Node) (s s' : σ) (m r : Node)
    (hm : tagMatchesMap tag l = [m]) (hf : fn m s = ((r, none), s')) :
    handleMapContent tag fn l s = (((replaceFirstMap tag (fun _ => r) l).1, none), s') := by
  match l with
  | [] => simp [tagMatchesMap] at hm
  | [key] => simp [tagMatchesMap] at hm
  | key :: v :: rest =>
    rcases hx : tagMatches tag v with _ | ⟨m0, tl0⟩
    · rw [tagMatchesMap, hx, List.nil_append] at hm
      simp [handleMapContent, handle_nomatch_node tag fn v s hx,
        replaceFirstMap, replaceFirst_nomatch tag (fun _ => r) v hx,
        handle_succ1_map tag fn rest s s' m r hm hf]
    · rw [tagMatchesMap, hx, List.cons_append] at hm
      simp only [List.cons.injEq, List.append_eq_nil] at hm
      have hx2 : tagMatches tag v = [m] := by rw [hx, hm.1, hm.2.1]
      have hnode := handle_succ1_node tag fn v s s' m r hx2 hf
      have hflag := replaceFirst_flag tag (fun _ => r) v m [] hx2
      rcases hr : replaceFirst tag (fun _ => r) v with ⟨v2, b⟩
      rw [hr] at hflag hnode
      simp only at hflag hnode
      subst hflag
      simp [handleMapContent, hnode, replaceFirstMap, hr,
        handle_nomatch_map tag fn rest s' hm.2.2]

end

mutual

/-- For an arbitrary resolver that succeeds on the tree's first match
(writing r1) and errors on the second (leaving it as r2),
HandleCustomTag returns that error and the state after the second
invocation, with exactly the first two matches overwritten and no
later node touched or resolved. -/
theorem handle_fail2_node {σ E : Type} (tag : String) (fn : TagProcessor σ E)
    (n : Node) (s0 s1 s2 : σ) (m0 m1 r1 r2 : Node) (ms : List Node) (e : E)
    (hm : tagMatches tag n = m0 :: m1 :: ms)
    (h1 : fn m0 s0 = ((r1, none), s1))
    (h2 : fn m1 s1 = ((r2, some e), s2)) :
    HandleCustomTag tag fn n s0 = (((graft2 tag r1 r2 n 0).1, some e), s2) := by
  match n with
  | .mk k t v c =>
    by_cases ht : t = tag
    · rw [tagMatches] at hm
      simp only [ht, ite_true, List.cons.injEq] at hm
      exact absurd hm.2 (by simp)
    · by_cases hk : k = Kind.sequence
      · subst hk
        rw [tagMatches] at hm
        simp only [ht, ite_false, ite_true] at hm
        simp [HandleCustomTag, graft2, ht,
          handle_fail2_seq tag fn c s0 s1 s2 m0 m1 r1 r2 ms e hm h1 h2]
      · by_cases hmp : k = Kind.mapping
        · subst hmp
          rw [tagMatches] at hm
          simp only [ht, ite_false, if_neg] at hm
          simp at hm
          simp [HandleCustomTag, graft2, ht,
            handle_fail2_map tag fn c s0 s1 s2 m0 m1 r1 r2 ms e hm h1 h2]
        · simp [tagMatches, ht, hk, hmp] at hm

/-- Sequence-loop version of handle_fail2_node. -/
theorem handle_fail2_seq {σ E : Type} (tag : String) (fn : TagProcessor σ E)
    (l : List Node) (s0 s1 s2 : σ) (m0 m1 r1 r2 : Node) (ms : List Node) (e : E)
    (hm : tagMatchesSeq tag l = m0 :: m1 :: ms)
    (h1 : fn m0 s0 = ((r1, none), s1))
    (h2 : fn m1 s1 = ((r2, some e), s2)) :
    handleSeqContent tag fn l s0 = (((graft2Seq tag r1 r2 l 0).1, some e), s2) := by
  match l with
  | [] => simp [tagMatchesSeq] at hm
  | x :: xs =>
    rcases hx : tagMatches tag x with _ | ⟨a, _ | ⟨b, tla⟩⟩
    · rw [tagMatchesSeq, hx, List.nil_append] at hm
      simp [handleSeqContent, handle_nomatch_node tag fn x s0 hx,
        graft2Seq, graft2_nomatch_node tag r1 r2 x 0 hx,
        handle_fail2_seq tag fn xs s0 s1 s2 m0 m1 r1 r2 ms e hm h1 h2]
    · rw [tagMatchesSeq, hx, List.cons_append, List.nil_append] at hm
      simp only [List.cons.injEq] at hm
      have hx2 : tagMatches tag x = [m0] := by rw [hx, hm.1]
      have hxs : tagMatchesSeq tag xs = m1 :: ms := hm.2
      have hnode := handle_succ1_node tag fn x s0 s1 m0 r1 hx2 h1
      have htail := handle_fail1_seq tag fn xs s1 s2 m1 r2 ms e hxs h2
      have hcnt : (graft2 tag r1 r2 x 0).2 = 1 := by
        rw [graft2_count_node, hx2]
        rfl
      have hz := graft2_zero1_node tag r1 r2 x m0 hx2
      simp [handleSeqContent, hnode, htail, graft2Seq, hz, hcnt,
        graft2_one_seq tag r1 r2 xs]
    · rw [tagMatchesSeq, hx, List.cons_append, List.cons_append] at hm
      simp only [List.cons.injEq] at hm
      have hx2 : tagMatches tag x = m0 :: m1 :: tla := by rw [hx, hm.1, hm.2.1]
      have hnode := handle_fail2_node tag fn x s0 s1 s2 m0 m1 r1 r2 tla e hx2 h1 h2
      have hcnt : 2 ≤ (graft2 tag r1 r2 x 0).2 := by
        rw [graft2_count_node, hx2]
        simp
      simp [handleSeqContent, hnode, graft2Seq,
        graft2_ge2_seq tag r1 r2 xs ((graft2 tag r1 r2 x 0).2) hcnt]

/-- Mapping-loop version of handle_fail2_node. -/
theorem handle_fail2_map {σ E : Type} (tag : String) (fn : TagProcessor σ E)
    (l : List Node) (s0 s1 s2 : σ) (m0 m1 r1 r2 : Node) (ms : List Node) (e : E)
    (hm : tagMatchesMap tag l = m0 :: m1 :: ms)
    (h1 : fn m0 s0 = ((r1, none), s1))
    (h2 : fn m1 s1 = ((r2, some e), s2)) :
    handleMapContent tag fn l s0 = (((graft2Map tag r1 r2 l 0).1, some e), s2) := by
  match l with
  | [] => simp [tagMatchesMap] at hm
  | [key] => simp [tagMatchesMap] at hm
  | key :: v :: rest =>
    rcases hx : tagMatches tag v with _ | ⟨a, _ | ⟨b, tla⟩⟩
    · rw [tagMatchesMap, hx, List.nil_append] at hm
      simp [handleMapContent, handle_nomatch_node tag fn v s0 hx,
        graft2Map, graft2_nomatch_node tag r1 r2 v 0 hx,
        handle_fail2_map tag fn rest s0 s1 s2 m0 m1 r1 r2 ms e hm h1 h2]
    · rw [tagMatchesMap, hx, List.cons_append, List.nil_append] at hm
      simp only [List.cons.injEq] at hm
      have hx2 : tagMatches tag v = [m0] := by rw [hx, hm.1]
      have hxs : tagMatchesMap tag rest = m1 :: ms := hm.2
      have hnode := handle_succ1_node tag fn v s0 s1 m0 r1 hx2 h1
      have htail := handle_fail1_map tag fn rest s1 s2 m1 r2 ms e hxs h2
      have hcnt : (graft2 tag r1 r2 v 0).2 = 1 := by
        rw [graft2_count_node, hx2]
        rfl
      have hz := graft2_zero1_node tag r1 r2 v m0 hx2
      simp [handleMapContent, hnode, htail, graft2Map, hz, hcnt,
        graft2_one_map tag r1 r2 rest]
    · rw [tagMatchesMap, hx, List.cons_append, List.cons_append] at hm
      simp only [List.cons.injEq] at hm
      have hx2 : tagMatches tag v = m0 :: m1 :: tla := by rw [hx, hm.1, hm.2.1]
      have hnode := handle_fail2_node tag fn v s0 s1 s2 m0 m1 r1 r2 tla e hx2 h1 h2
      have hcnt : 2 ≤ (graft2 tag r1 r2 v 0).2 := by
        rw [graft2_count_node, hx2]
        simp
      simp [handleMapContent, hnode, graft2Map,
        graft2_ge2_map tag r1 r2 rest ((graft2 tag r1 r2 v 0).2) hcnt]

end

/-- The backward scan of fileNameWithoutExt over a name holding no dot
always ends at a separator or at the start, returning the empty
string. -/
theorem fnweLoop_no_dot (cs : List Char) (h : '.' ∉ cs) (j : Nat) :
    fnweLoop cs j = "" := by
  induction j with
  | zero => rfl
  | succ j ih =>
    show (if cs.getD j ' ' = '/' then ""
      else if cs.getD j ' ' = '.' then String.mk (cs.take j) else fnweLoop cs j) = ""
    by_cases h1 : cs.getD j ' ' = '/'
    · rw [if_pos h1]
    · rw [if_neg h1]
      by_cases h2 : cs.getD j ' ' = '.'
      · exfalso
        by_cases hj : j < cs.length
        · rw [List.getD_eq_getElem cs ' ' hj] at h2
          exact h (h2 ▸ List.getElem_mem hj)
        · push_neg at hj
          rw [List.getD_eq_default cs ' ' hj] at h2
          simp at h2
      · rw [if_neg h2]
        exact ih

/-- fileNameWithoutExt of any name without a dot is the empty string. -/
theorem fileNameWithoutExt_no_dot (nm : String) (h : '.' ∉ nm.data) :
    fileNameWithoutExt nm = "" :=
  fnweLoop_no_dot nm.data h nm.data.length

/-- The directory walk collects over an appended entry list piecewise. -/
theorem walkEntries_append (a b : List FSEntry) :
    walkEntries (a ++ b) = walkEntries a ++ walkEntries b := by
  induction a with
  | nil => simp [walkEntries]
  | cons e rest ih =>
    rw [List.cons_append, walkEntries, walkEntries, ih, List.append_assoc]

/-- A directory-include tag node naming an existing directory resolves
to the mapping of the pairs walked from that directory's entries. -/
theorem dirNamed_resolves (fs : FS) (p dnm : String) (es : List FSEntry)
    (k : Kind) (c : List Node)
    (h : findEntry fs (splitPath p) = some (.dir dnm es)) :
    LoadIncludeDirNamedTag fs (Node.mk k "!include_dir_named" p c)
      = ((Node.mk .mapping "!!map" "" (pairsContent (walkEntries es)), none), ()) := by
  rw [LoadIncludeDirNamedTag, HandleCustomTag]
  simp only [ite_true, if_pos]
  simp only [includeDirNamedResolver, Node.value]
  rw [h]

/-- C2: for every tree whose matches in document order start with m0
and m1, and every resolver that succeeds on the first match (writing
r1) and returns an error on the second (leaving it as r2),
HandleCustomTag returns that error to the caller; the first match's
in-place replacement r1 is left intact (not rolled back), the second
match holds exactly what the resolver left there, and no other node
(in particular no later match, nor anything inside the second match's
content) is touched or resolved: the result tree is graft2 and the
final state is the one after exactly the two invocations. -/
theorem C2_second_match_error {σ E : Type} (tag : String) (fn : TagProcessor σ E)
    (n m0 m1 r1 r2 : Node) (ms : List Node) (e : E) (s0 s1 s2 : σ)
    (hm : tagMatches tag n = m0 :: m1 :: ms)
    (h1 : fn m0 s0 = ((r1, none), s1))
    (h2 : fn m1 s1 = ((r2, some e), s2)) :
    HandleCustomTag tag fn n s0 = (((graft2 tag r1 r2 n 0).1, some e), s2) :=
  handle_fail2_node tag fn n s0 s1 s2 m0 m1 r1 r2 ms e hm h1 h2

/-- C2 witness: on the mapping a colon !t X, b colon !t Y, with the
succeed-once-then-fail resolver that replaces the first match with
the scalar R and errors with boom on the second, the error is
returned, X's replacement R is kept, Y stays as it was, and the
resolver was invoked exactly on X then Y. -/
theorem C2_second_match_error_witness :
    HandleCustomTag "!t" (onceResolver gR "boom") nodeXY []
      = (((graft2 "!t" (strNode "R") nodeY nodeXY 0).1, some "boom"), [nodeX, nodeY]) ∧
    (graft2 "!t" (strNode "R") nodeY nodeXY 0).1
      = Node.mk .mapping "!!map" "" [keyA, strNode "R", keyB, nodeY] :=
  ⟨C2_second_match_error "!t" (onceResolver gR "boom") nodeXY nodeX nodeY
      (strNode "R") nodeY [] "boom" [] [nodeX] [nodeX, nodeY] rfl rfl rfl, rfl⟩

/-- C10: for every file name that contains no dot character,
fileNameWithoutExt returns the empty string, so whenever a walked
directory contains such a file, LoadIncludeDirNamedTag records that
file's parsed content under the key empty string rather than under
the file's base name. -/
theorem C10_no_dot_empty_key (fs : FS) (p dnm nm : String) (doc : Option Node)
    (pre post : List FSEntry) (k : Kind) (c : List Node)
    (hdot : '.' ∉ nm.data)
    (hfind : findEntry fs (splitPath p) = some (.dir dnm (pre ++ FSEntry.file nm doc :: post))) :
    fileNameWithoutExt nm = "" ∧
    LoadIncludeDirNamedTag fs (Node.mk k "!include_dir_named" p c)
      = ((Node.mk .mapping "!!map" ""
            (pairsContent (walkEntries pre ++ ("", doc) :: walkEntries post)), none), ()) := by
  refine ⟨fileNameWithoutExt_no_dot nm hdot, ?_⟩
  rw [dirNamed_resolves fs p dnm (pre ++ FSEntry.file nm doc :: post) k c hfind]
  rw [walkEntries_append, walkEntries, walkEntry, fileNameWithoutExt_no_dot nm hdot]
  simp

/-- C10 witness: the universal theorem applied to the name Makefile
inside directory d, together with the fully evaluated resolution. -/
theorem C10_no_dot_empty_key_witness :
    ('.' ∉ "Makefile".data) ∧
    (fileNameWithoutExt "Makefile" = "" ∧
      LoadIncludeDirNamedTag fsC10 nC10
        = ((Node.mk .mapping "!!map" ""
              (pairsContent (walkEntries [] ++ ("", some mfDoc) :: walkEntries [])), none), ())) ∧
    LoadIncludeDirNamedTag fsC10 nC10
      = ((Node.mk Kind.mapping "!!map" "" [strNode "", mfDoc], none), ()) :=
  ⟨by decide,
   C10_no_dot_empty_key fsC10 "d" "d" "Makefile" (some mfDoc) [] [] Kind.scalar []
     (by decide) rfl,
   rfl⟩
